import Mathlib

/-!
# consumer/log_source.go — batching and dispatch pipeline

A shallow embedding of `SourceServer` (package `consumer`) and the properties
of its batch assembler, send pipeline, counters, shutdown walk and pool
rotation.

Conventions of the embedding

* Go `int64` values are `Int`s; every `int64` operation of the source is
  followed by `wrap64`, the two's-complement reduction to
  `[-2^63, 2^63)`.
* `batchSize` is a Go `int` that `newSourceServer` sets to 300 and that
  `make(..., 0, batchSize)` requires to be non-negative; it is a `Nat`.
* A channel is the list of the values it holds (oldest first) together with
  a closed flag; the values handed to `sendbuff` are recorded in order.
* The pool, the clients and the clock are collaborators outside the file:
  their answers are inputs of the model (clock readings per arrival, one
  `Outcome` per send attempt) and the calls made to them are recorded in a
  trace of `Effect`s.
* `log.Printf` lines (and the sampled trace line behind
  `rand.Int()%10000 == 0`) only write to the log and are left out.
-/

namespace consumer

/-! ## 64-bit integers -/

/-- Two's-complement reduction of an integer to the `int64` range. -/
def wrap64 (x : Int) : Int :=
  (x + 9223372036854775808) % 18446744073709551616 - 9223372036854775808

/-- The integer is representable as an `int64`. -/
def inInt64 (x : Int) : Prop :=
  -9223372036854775808 ≤ x ∧ x < 9223372036854775808

instance (x : Int) : Decidable (inInt64 x) := by
  unfold inInt64; exact inferInstance

/-- A clock reading `time.Now().Unix()` far from the ends of the `int64`
range (within 2^62 seconds of the epoch), so that the difference of two
readings is exact. -/
def unixRange (t : Int) : Prop :=
  -4611686018427387904 ≤ t ∧ t < 4611686018427387904

instance (t : Int) : Decidable (unixRange t) := by
  unfold unixRange; exact inferInstance

/-! ## Batch assembler (second goroutine of `start`) -/

/-- One iteration of the assembler loop as seen from outside: the event
received from `buffChannel`, the clock reading used in the loop condition
and the clock reading stored by `lastCheckTime = time.Now().Unix()`. -/
structure Arrival (α : Type) where
  event : α
  nowCheck : Int
  nowFlush : Int
  deriving DecidableEq, Repr

/-- Local state of the assembler goroutine: the slice `pack`, the variable
`lastCheckTime`, and the batches sent on `sendbuff` so far (oldest first). -/
structure Assembler (α : Type) where
  pack : List α
  lastCheckTime : Int
  sendbuff : List (List α)
  deriving DecidableEq, Repr

/-- State at the top of the loop: `pack := make(..., 0, batchSize)` and
`lastCheckTime := time.Now().Unix()`. -/
def Assembler.init {α : Type} (startTime : Int) : Assembler α :=
  { pack := [], lastCheckTime := startTime, sendbuff := [] }

/-- Body of the loop for one received event (lines 85-94).  When the guard
holds the event is appended and the loop continues; otherwise the clock is
stored, `pack` is sent and a fresh empty `pack` is made.  The received event
is not used on the second path. -/
def assemblerStep {α : Type} (batchSize : Nat) (s : Assembler α) (a : Arrival α) :
    Assembler α :=
  if s.pack.length < batchSize ∧ wrap64 (a.nowCheck - s.lastCheckTime) ≤ 0 then
    { s with pack := s.pack ++ [a.event] }
  else
    { pack := [], lastCheckTime := a.nowFlush, sendbuff := s.sendbuff ++ [s.pack] }

/-- The loop run over the events received while `isStop` is false. -/
def assemble {α : Type} (batchSize : Nat) (startTime : Int) (arrivals : List (Arrival α)) :
    Assembler α :=
  arrivals.foldl (assemblerStep batchSize) (Assembler.init startTime)

/-- An arrival whose two clock readings fall in the same second `t`. -/
def Arrival.sameSecond {α : Type} (t : Int) (e : α) : Arrival α :=
  { event := e, nowCheck := t, nowFlush := t }

/-- The batches the assembler has formed: those sent, then the one in
progress. -/
def Assembler.formed {α : Type} (s : Assembler α) : List (List α) :=
  s.sendbuff ++ [s.pack]

/-- Every event held by the assembler's output, in order: the sent batches
concatenated, then the batch in progress. -/
def Assembler.delivered {α : Type} (s : Assembler α) : List α :=
  s.sendbuff.flatten ++ s.pack

/-! ## Data model -/

/-- The struct `counter`. -/
structure counter where
  lastSuccValue : Int
  currSuccValue : Int
  lastFailValue : Int
  currFailValue : Int
  deriving DecidableEq, Repr

/-- A `*pool.FlumePoolLink` held by the rotation list: `id` is the identity
of the pointer, `FlumePool` the field read by `getFlumeClientPool`. -/
structure FlumePoolLink where
  id : Nat
  FlumePool : Nat
  deriving DecidableEq, Repr

/-- A buffered channel: the values it holds (oldest first), its capacity and
whether it has been closed. -/
structure Chan (α : Type) where
  buf : List α
  cap : Nat
  closed : Bool
  deriving DecidableEq, Repr

/-- The struct `SourceServer`; `flumeClientPool` is the `*list.List`, front
element first. The event type `*flume.ThriftFlumeEvent` is a parameter. -/
structure SourceServer (ε : Type) where
  flumeClientPool : List FlumePoolLink
  isStop : Bool
  monitorCount : counter
  business : String
  batchSize : Nat
  buffChannel : Chan ε
  deriving DecidableEq, Repr

/-- The constructor `newSourceServer`: batch size 300, ingest buffer of
capacity 500, zero counters, `isStop` false. -/
def newSourceServer {ε : Type} (business : String) (flumePool : List FlumePoolLink) :
    SourceServer ε :=
  { flumeClientPool := flumePool
    isStop := false
    monitorCount := { lastSuccValue := 0, currSuccValue := 0, lastFailValue := 0, currFailValue := 0 }
    business := business
    batchSize := 300
    buffChannel := { buf := [], cap := 500, closed := false } }

/-- A client handed out by a pool (the identity of the pointer). -/
abbrev Client := Nat

/-- Calls made to the collaborators, in the order they are made.  `get`
records the pool asked and the client it handed out (`none` when the call
returned an error or a nil client). -/
inductive Effect (ε : Type) where
  | get (pool : Nat) (client : Option Client)
  | appendBatch (c : Client) (events : List ε)
  | release (pool : Nat) (c : Client)
  | releaseBroken (pool : Nat) (c : Client)
  | sleep (seconds : Nat)
  | detachBusiness (link : FlumePoolLink) (business : String)
  | closeBuff
  deriving DecidableEq, Repr

/-! ## `monitor` -/

/-- The method `monitor`: the two differences are `int64` subtractions. -/
def SourceServer.monitor {ε : Type} (self : SourceServer ε) :
    (Int × Int × Nat) × SourceServer ε :=
  let currSucc := self.monitorCount.currSuccValue
  let currFail := self.monitorCount.currFailValue
  let succ := wrap64 (currSucc - self.monitorCount.lastSuccValue)
  let fail := wrap64 (currFail - self.monitorCount.lastFailValue)
  let mc := { self.monitorCount with lastSuccValue := currSucc, lastFailValue := currFail }
  ((succ, fail, self.buffChannel.buf.length), { self with monitorCount := mc })

/-- `atomic.AddInt64(&self.monitorCount.currSuccValue, d)`. -/
def SourceServer.addSucc {ε : Type} (self : SourceServer ε) (d : Int) : SourceServer ε :=
  { self with monitorCount :=
      { self.monitorCount with currSuccValue := wrap64 (self.monitorCount.currSuccValue + d) } }

/-- `atomic.AddInt64(&self.monitorCount.currFailValue, d)`. -/
def SourceServer.addFail {ε : Type} (self : SourceServer ε) (d : Int) : SourceServer ε :=
  { self with monitorCount :=
      { self.monitorCount with currFailValue := wrap64 (self.monitorCount.currFailValue + d) } }

/-- What can happen to a pipeline's counters between two observations: a
worker adds to one of the current values, or `monitor` is called. -/
inductive CounterOp where
  | addSucc (d : Int)
  | addFail (d : Int)
  | monitor
  deriving DecidableEq, Repr

/-- A sequential interleaving of counter additions and `monitor` calls; the
results of the `monitor` calls are collected in call order. -/
def runOps {ε : Type} : SourceServer ε → List CounterOp → List (Int × Int × Nat) × SourceServer ε
  | s, [] => ([], s)
  | s, CounterOp.addSucc d :: ops => runOps (s.addSucc d) ops
  | s, CounterOp.addFail d :: ops => runOps (s.addFail d) ops
  | s, CounterOp.monitor :: ops =>
      let r := s.monitor
      let rest := runOps r.2 ops
      (r.1 :: rest.1, rest.2)

/-- No `monitor` call of the interleaving overflows in its two `int64`
subtractions. -/
def monitorExact {ε : Type} : SourceServer ε → List CounterOp → Prop
  | _, [] => True
  | s, CounterOp.addSucc d :: ops => monitorExact (s.addSucc d) ops
  | s, CounterOp.addFail d :: ops => monitorExact (s.addFail d) ops
  | s, CounterOp.monitor :: ops =>
      inInt64 (s.monitorCount.currSuccValue - s.monitorCount.lastSuccValue) ∧
      inInt64 (s.monitorCount.currFailValue - s.monitorCount.lastFailValue) ∧
      monitorExact s.monitor.2 ops

/-- Whether an interleaving overflows in a `monitor` call can be computed. -/
instance monitorExactDecidable {ε : Type} :
    (s : SourceServer ε) → (ops : List CounterOp) → Decidable (monitorExact s ops)
  | _, [] => isTrue trivial
  | s, CounterOp.addSucc d :: ops => monitorExactDecidable (s.addSucc d) ops
  | s, CounterOp.addFail d :: ops => monitorExactDecidable (s.addFail d) ops
  | s, CounterOp.monitor :: ops =>
      have := monitorExactDecidable s.monitor.2 ops
      inferInstanceAs (Decidable
        (inInt64 (s.monitorCount.currSuccValue - s.monitorCount.lastSuccValue) ∧
          inInt64 (s.monitorCount.currFailValue - s.monitorCount.lastFailValue) ∧
          monitorExact s.monitor.2 ops))

/-- Sum of the amounts added to `currSuccValue` by the operations. -/
def succTotal : List CounterOp → Int
  | [] => 0
  | CounterOp.addSucc d :: ops => d + succTotal ops
  | _ :: ops => succTotal ops

/-- Sum of the amounts added to `currFailValue` by the operations. -/
def failTotal : List CounterOp → Int
  | [] => 0
  | CounterOp.addFail d :: ops => d + failTotal ops
  | _ :: ops => failTotal ops

/-! ## Pool rotation: `getFlumeClientPool` -/

/-- `l.Back()` of `container/list`: the last element, given by its position;
`none` is the nil element of an empty list. -/
def Back {α : Type} (l : List α) : Option Nat :=
  if l.length = 0 then none else some (l.length - 1)

/-- `l.MoveToFront(e)` of `container/list` for the element at position `e`:
the element is unlinked and inserted before the first one. -/
def MoveToFront {α : Type} (l : List α) (e : Nat) : List α :=
  match l[e]? with
  | none => l
  | some v => v :: l.eraseIdx e

/-- The method `getFlumeClientPool` on the rotation list: the pool of the
selected link and the list after the move, or `none` when `Back()` is nil and
the call faults on the nil element. -/
def getFlumeClientPool (links : List FlumePoolLink) : Option (Nat × List FlumePoolLink) :=
  match Back links with
  | none => none
  | some e =>
    match links[e]? with
    | none => none
    | some v => some (v.FlumePool, MoveToFront links e)

/-- The link `e.Value` selected by a call of `getFlumeClientPool`. -/
def selectedLink (links : List FlumePoolLink) : Option FlumePoolLink :=
  match Back links with
  | none => none
  | some e => links[e]?

/-- The pools returned by `n` consecutive calls of `getFlumeClientPool` (in
call order) and the list they leave; `none` if a call faults. -/
def getFlumeClientPoolN : Nat → List FlumePoolLink → Option (List Nat × List FlumePoolLink)
  | 0, links => some ([], links)
  | n + 1, links =>
    match getFlumeClientPool links with
    | none => none
    | some (p, links1) =>
      match getFlumeClientPoolN n links1 with
      | none => none
      | some (ps, links2) => some (p :: ps, links2)

/-- The links selected by `n` consecutive calls of `getFlumeClientPool`. -/
def selectedLinksN : Nat → List FlumePoolLink → List FlumePoolLink
  | 0, _ => []
  | n + 1, links =>
    match selectedLink links, getFlumeClientPool links with
    | some v, some (_, links1) => v :: selectedLinksN n links1
    | _, _ => []

/-! ## Send pipeline: `innerSend` -/

/-- How the collaborators answer one attempt: `pool.Get` fails (error or nil
client), or it hands out client `c` and `AppendBatch` then returns nil,
returns an error, or panics. -/
inductive Outcome where
  | getFail
  | sendOk (c : Client)
  | sendErr (c : Client)
  | sendPanic (c : Client)
  deriving DecidableEq, Repr

/-- The client `pool.Get` hands out in an attempt, if any. -/
def Outcome.client : Outcome → Option Client
  | Outcome.getFail => none
  | Outcome.sendOk c => some c
  | Outcome.sendErr c => some c
  | Outcome.sendPanic c => some c

/-- The answers of the collaborators given as a list, attempt by attempt;
past the end of the list `pool.Get` fails. -/
def scriptOf (l : List Outcome) : Nat → Outcome :=
  fun i => l.getD i Outcome.getFail

/-- Number of attempts among the `m` attempts from index `i` on in which
`AppendBatch` returns an error. -/
def errCount (world : Nat → Outcome) : Nat → Nat → Nat
  | 0, _ => 0
  | m + 1, i =>
    (match world i with
      | Outcome.sendErr _ => 1
      | _ => 0) + errCount world m (i + 1)

/-- Number of calls of `pool.Get` in a trace. -/
def getCount {ε : Type} : List (Effect ε) → Nat
  | [] => 0
  | Effect.get _ _ :: t => getCount t + 1
  | _ :: t => getCount t

/-- Number of calls of `AppendBatch` in a trace. -/
def appendBatchCount {ε : Type} : List (Effect ε) → Nat
  | [] => 0
  | Effect.appendBatch _ _ :: t => appendBatchCount t + 1
  | _ :: t => appendBatchCount t

/-- The clients handed out by `pool.Get` in a trace, each with its pool, in
call order. -/
def acquired {ε : Type} : List (Effect ε) → List (Nat × Client)
  | [] => []
  | Effect.get pool (some c) :: t => (pool, c) :: acquired t
  | _ :: t => acquired t

/-- The clients given to `pool.Release` in a trace, each with the pool, in
call order. -/
def released {ε : Type} : List (Effect ε) → List (Nat × Client)
  | [] => []
  | Effect.release pool c :: t => (pool, c) :: released t
  | _ :: t => released t

/-- The clients given to `pool.ReleaseBroken` in a trace, each with the pool,
in call order. -/
def evicted {ε : Type} : List (Effect ε) → List (Nat × Client)
  | [] => []
  | Effect.releaseBroken pool c :: t => (pool, c) :: evicted t
  | _ :: t => evicted t

/-- The server after `MoveToFront` has reordered the shared rotation list. -/
def SourceServer.withPool {ε : Type} (self : SourceServer ε) (links : List FlumePoolLink) :
    SourceServer ε :=
  { self with flumeClientPool := links }

/-- Running state of one `innerSend` call: the server, the calls made so far
and the deferred closures (most recently deferred first), each holding the
`pool` and `flumeclient` of its iteration. -/
structure Frame (ε : Type) where
  server : SourceServer ε
  trace : List (Effect ε)
  defers : List (Nat × Client)
  deriving DecidableEq, Repr

/-- The loop `for i := 0; i < 3; i++` of `innerSend` with `n` iterations left,
at index `i`.  The boolean is true when the loop is left by a panic. -/
def innerSendLoop {ε : Type} (events : List ε) (world : Nat → Outcome) :
    Nat → Nat → Frame ε → Frame ε × Bool
  | 0, _, fr => (fr, false)
  | n + 1, i, fr =>
    match getFlumeClientPool fr.server.flumeClientPool with
    | none => (fr, true)
    | some (pool, links) =>
      let fr1 : Frame ε :=
        { fr with
          server := fr.server.withPool links
          trace := fr.trace ++ [Effect.get pool (world i).client] }
      match world i with
      | Outcome.getFail => innerSendLoop events world n (i + 1) fr1
      | Outcome.sendPanic c =>
          ({ fr1 with trace := fr1.trace ++ [Effect.appendBatch c events] }, true)
      | Outcome.sendErr c =>
          innerSendLoop events world n (i + 1)
            { server := fr1.server.addFail (1 * fr1.server.batchSize)
              trace := fr1.trace ++ [Effect.appendBatch c events]
              defers := (pool, c) :: fr1.defers }
      | Outcome.sendOk c =>
          ({ server := fr1.server.addSucc (1 * fr1.server.batchSize)
             trace := fr1.trace ++ [Effect.appendBatch c events]
             defers := (pool, c) :: fr1.defers }, false)

/-- The deferred closures run when `innerSend` is left, most recent first.
`recover()` is non-nil only in the first closure run while a panic is in
flight; that closure calls `ReleaseBroken` and the panic is over, every
other closure calls `Release`.  The boolean is true when a panic is still in
flight after the last closure. -/
def runDeferred (ε : Type) : Bool → List (Nat × Client) → List (Effect ε) × Bool
  | p, [] => ([], p)
  | true, (pool, c) :: ds =>
      let r := runDeferred ε false ds
      (Effect.releaseBroken pool c :: r.1, r.2)
  | false, (pool, c) :: ds =>
      let r := runDeferred ε false ds
      (Effect.release pool c :: r.1, r.2)

/-- What a call leaves behind: the server, the calls made, and whether a
panic leaves the function. -/
structure CallResult (ε : Type) where
  server : SourceServer ε
  trace : List (Effect ε)
  panicked : Bool
  deriving DecidableEq, Repr

/-- The method `innerSend`. -/
def SourceServer.innerSend {ε : Type} (self : SourceServer ε) (events : List ε)
    (world : Nat → Outcome) : CallResult ε :=
  let r := innerSendLoop events world 3 0 { server := self, trace := [], defers := [] }
  let d := runDeferred ε r.2 r.1.defers
  { server := r.1.server, trace := r.1.trace ++ d.1, panicked := d.2 }

/-! ## `stop` -/

/-- The loop `for v := Back(); nil != v; v = v.Prev()` of `stop`; the
argument is one more than the position of `v`, and 0 when `v` is nil. -/
def detachWalk {ε : Type} (links : List FlumePoolLink) (business : String) :
    Nat → List (Effect ε)
  | 0 => []
  | v + 1 =>
    match links[v]? with
    | none => []
    | some link => Effect.detachBusiness link business :: detachWalk links business v

/-- The method `stop`.  Closing a channel that is already closed panics. -/
def SourceServer.stop {ε : Type} (self : SourceServer ε) : CallResult ε :=
  let start : Nat := match Back self.flumeClientPool with
    | none => 0
    | some e => e + 1
  { server :=
      { self with isStop := true, buffChannel := { self.buffChannel with closed := true } }
    trace := [Effect.sleep 5] ++ detachWalk self.flumeClientPool self.business start
      ++ [Effect.closeBuff]
    panicked := self.buffChannel.closed }

end consumer

namespace consumer

/-! ## Arithmetic helpers -/

theorem wrap64_of_inInt64 (x : Int) (h : inInt64 x) : wrap64 x = x := by
  unfold inInt64 at h
  unfold wrap64
  omega

theorem wrap64_sub_of_unixRange (x y : Int) (hx : unixRange x) (hy : unixRange y) :
    wrap64 (x - y) = x - y := by
  unfold unixRange at hx hy
  unfold wrap64
  omega

theorem wrap64_add_wrap64 (x y : Int) : wrap64 (wrap64 x + y) = wrap64 (x + y) := by
  unfold wrap64
  omega

theorem wrap64_wrap64_add (x y : Int) : wrap64 (x + wrap64 y) = wrap64 (x + y) := by
  unfold wrap64
  omega

theorem wrap64_idem (x : Int) : wrap64 (wrap64 x) = wrap64 x := by
  unfold wrap64
  omega

theorem wrap64_zero : wrap64 0 = 0 := by
  unfold wrap64
  omega

/-! ## Batch assembler -/

theorem assemble_snoc {α : Type} (b : Nat) (t0 : Int) (pre : List (Arrival α)) (a : Arrival α) :
    assemble b t0 (pre ++ [a]) = assemblerStep b (assemble b t0 pre) a := by
  simp [assemble, List.foldl_append]

/-- What holds of the assembler after any number of iterations: the batch in
progress and every batch sent hold at most `batchSize` events. -/
theorem assemble_bounded {α : Type} (b : Nat) (t0 : Int) (arrivals : List (Arrival α)) :
    (assemble b t0 arrivals).pack.length ≤ b ∧
      ∀ batch ∈ (assemble b t0 arrivals).sendbuff, batch.length ≤ b := by
  induction arrivals using List.reverseRecOn with
  | nil => simp [assemble, Assembler.init]
  | append_singleton pre a ih =>
    rw [assemble_snoc]
    obtain ⟨hp, hs⟩ := ih
    unfold assemblerStep
    split
    · rename_i hg
      refine ⟨?_, hs⟩
      simp only [List.length_append, List.length_singleton]
      omega
    · refine ⟨by simp, ?_⟩
      intro batch hb
      simp only [List.mem_append, List.mem_singleton] at hb
      rcases hb with hb | hb
      · exact hs batch hb
      · rw [hb]; exact hp

/-- The stored clock value is the start time or a clock reading of an earlier
iteration. -/
theorem assemble_lastCheckTime_range {α : Type} (b : Nat) (t0 : Int)
    (arrivals : List (Arrival α)) (ht0 : unixRange t0)
    (hts : ∀ a ∈ arrivals, unixRange a.nowCheck ∧ unixRange a.nowFlush) :
    unixRange (assemble b t0 arrivals).lastCheckTime := by
  induction arrivals using List.reverseRecOn with
  | nil => simpa [assemble, Assembler.init] using ht0
  | append_singleton pre a ih =>
    rw [assemble_snoc]
    have hpre : ∀ x ∈ pre, unixRange x.nowCheck ∧ unixRange x.nowFlush :=
      fun x hx => hts x (List.mem_append_left _ hx)
    have ha := hts a (by simp)
    unfold assemblerStep
    split
    · exact ih hpre
    · exact ha.2

/-! ## Counters -/

theorem runOps_succ_sum {ε : Type} (ops : List CounterOp) (s : SourceServer ε)
    (h : monitorExact s (ops ++ [CounterOp.monitor])) :
    ((runOps s (ops ++ [CounterOp.monitor])).1.map (fun r => r.1)).sum
      = (runOps s ops).2.monitorCount.currSuccValue - s.monitorCount.lastSuccValue := by
  induction ops generalizing s with
  | nil =>
    simp only [List.nil_append, monitorExact] at h
    simp [runOps, SourceServer.monitor, wrap64_of_inInt64 _ h.1]
  | cons op ops ih =>
    cases op with
    | addSucc d =>
      simp only [List.cons_append, monitorExact] at h
      simpa [runOps, SourceServer.addSucc] using ih (s.addSucc d) h
    | addFail d =>
      simp only [List.cons_append, monitorExact] at h
      simpa [runOps, SourceServer.addFail] using ih (s.addFail d) h
    | monitor =>
      simp only [List.cons_append, monitorExact] at h
      have h2 := ih s.monitor.2 h.2.2
      simp only [List.cons_append, runOps, List.map_cons, List.sum_cons, List.append_eq]
      rw [h2]
      simp only [SourceServer.monitor, wrap64_of_inInt64 _ h.1]
      omega

theorem runOps_fail_sum {ε : Type} (ops : List CounterOp) (s : SourceServer ε)
    (h : monitorExact s (ops ++ [CounterOp.monitor])) :
    ((runOps s (ops ++ [CounterOp.monitor])).1.map (fun r => r.2.1)).sum
      = (runOps s ops).2.monitorCount.currFailValue - s.monitorCount.lastFailValue := by
  induction ops generalizing s with
  | nil =>
    simp only [List.nil_append, monitorExact] at h
    simp [runOps, SourceServer.monitor, wrap64_of_inInt64 _ h.2.1]
  | cons op ops ih =>
    cases op with
    | addSucc d =>
      simp only [List.cons_append, monitorExact] at h
      simpa [runOps, SourceServer.addSucc] using ih (s.addSucc d) h
    | addFail d =>
      simp only [List.cons_append, monitorExact] at h
      simpa [runOps, SourceServer.addFail] using ih (s.addFail d) h
    | monitor =>
      simp only [List.cons_append, monitorExact] at h
      have h2 := ih s.monitor.2 h.2.2
      simp only [List.cons_append, runOps, List.map_cons, List.sum_cons, List.append_eq]
      rw [h2]
      simp only [SourceServer.monitor, wrap64_of_inInt64 _ h.2.1]
      omega

theorem runOps_adds_then_monitor {ε : Type} (adds : List CounterOp) (u : SourceServer ε)
    (hadds : ∀ op ∈ adds, op ≠ CounterOp.monitor) :
    (runOps u (adds ++ [CounterOp.monitor])).1 =
      [(wrap64 (u.monitorCount.currSuccValue - u.monitorCount.lastSuccValue + succTotal adds),
        wrap64 (u.monitorCount.currFailValue - u.monitorCount.lastFailValue + failTotal adds),
        u.buffChannel.buf.length)] := by
  induction adds generalizing u with
  | nil => simp [runOps, SourceServer.monitor, succTotal, failTotal]
  | cons op adds ih =>
    have hrest : ∀ op ∈ adds, op ≠ CounterOp.monitor :=
      fun x hx => hadds x (List.mem_cons_of_mem _ hx)
    cases op with
    | addSucc d =>
      simp only [List.cons_append, runOps, List.append_eq]
      rw [ih (u.addSucc d) hrest]
      simp only [SourceServer.addSucc, succTotal, failTotal]
      congr 2
      unfold wrap64
      omega
    | addFail d =>
      simp only [List.cons_append, runOps, List.append_eq]
      rw [ih (u.addFail d) hrest]
      simp only [SourceServer.addFail, succTotal, failTotal]
      congr 3
      unfold wrap64
      omega
    | monitor => exact absurd rfl (hadds CounterOp.monitor (by simp))

/-- C7: for every sequence of counter additions and `monitor` calls that ends
with a `monitor` call and in which no `monitor` subtraction overflows, the
success deltas returned by the calls sum to the value of `currSuccValue` at
the last call minus the initial baseline `lastSuccValue`, and likewise for
failures.  The additions made between two consecutive calls are what the
second call reports, so a call with no addition since the previous call
returns (0, 0).  `monitor` returns the length of the ingest buffer and leaves
`currSuccValue` and `currFailValue` as they are. -/
theorem monitor_delta_accounting {ε : Type} (s : SourceServer ε) (ops adds : List CounterOp)
    (h : monitorExact s (ops ++ [CounterOp.monitor]))
    (hadds : ∀ op ∈ adds, op ≠ CounterOp.monitor) :
    ((runOps s (ops ++ [CounterOp.monitor])).1.map (fun r => r.1)).sum
        = (runOps s ops).2.monitorCount.currSuccValue - s.monitorCount.lastSuccValue ∧
    ((runOps s (ops ++ [CounterOp.monitor])).1.map (fun r => r.2.1)).sum
        = (runOps s ops).2.monitorCount.currFailValue - s.monitorCount.lastFailValue ∧
    (runOps s.monitor.2 (adds ++ [CounterOp.monitor])).1
        = [(wrap64 (succTotal adds), wrap64 (failTotal adds), s.buffChannel.buf.length)] ∧
    s.monitor.2.monitor.1 = (0, 0, s.buffChannel.buf.length) ∧
    s.monitor.1.2.2 = s.buffChannel.buf.length ∧
    s.monitor.2.monitorCount.currSuccValue = s.monitorCount.currSuccValue ∧
    s.monitor.2.monitorCount.currFailValue = s.monitorCount.currFailValue := by
  refine ⟨runOps_succ_sum ops s h, runOps_fail_sum ops s h, ?_, ?_, rfl, rfl, rfl⟩
  · rw [runOps_adds_then_monitor adds s.monitor.2 hadds]
    simp [SourceServer.monitor]
  · simp [SourceServer.monitor, wrap64_zero]

/-- C7 on a fresh pipeline: 300 added to the successes, a call, 300 added to
the failures and 300 to the successes, a call, a call; and the additions
300, 300 (successes) between two calls. -/
theorem monitor_delta_accounting_witness :
    monitorExact (newSourceServer "biz" [] : SourceServer Nat)
      ([CounterOp.addSucc 300, CounterOp.monitor, CounterOp.addFail 300,
        CounterOp.addSucc 300, CounterOp.monitor] ++ [CounterOp.monitor]) ∧
    (runOps (newSourceServer "biz" [] : SourceServer Nat)
      ([CounterOp.addSucc 300, CounterOp.monitor, CounterOp.addFail 300,
        CounterOp.addSucc 300, CounterOp.monitor] ++ [CounterOp.monitor])).1
      = [(300, 0, 0), (300, 300, 0), (0, 0, 0)] ∧
    ((runOps (newSourceServer "biz" [] : SourceServer Nat)
      ([CounterOp.addSucc 300, CounterOp.monitor, CounterOp.addFail 300,
        CounterOp.addSucc 300, CounterOp.monitor] ++ [CounterOp.monitor])).1.map
          (fun r => r.1)).sum
      = (runOps (newSourceServer "biz" [] : SourceServer Nat)
          [CounterOp.addSucc 300, CounterOp.monitor, CounterOp.addFail 300,
            CounterOp.addSucc 300, CounterOp.monitor]).2.monitorCount.currSuccValue
        - (newSourceServer "biz" [] : SourceServer Nat).monitorCount.lastSuccValue :=
  ⟨by decide, by decide,
    (monitor_delta_accounting (newSourceServer "biz" [] : SourceServer Nat)
      [CounterOp.addSucc 300, CounterOp.monitor, CounterOp.addFail 300,
        CounterOp.addSucc 300, CounterOp.monitor]
      [CounterOp.addSucc 300, CounterOp.addSucc 300]
      (by decide) (by decide)).1⟩

/-! ## Pool rotation -/

theorem eraseIdx_concat_length {α : Type} (front : List α) (v : α) :
    (front ++ [v]).eraseIdx front.length = front := by
  rw [List.eraseIdx_append_of_length_le (Nat.le_refl _)]
  simp

theorem Back_concat {α : Type} (front : List α) (v : α) :
    Back (front ++ [v]) = some front.length := by
  simp [Back]

theorem getFlumeClientPool_concat (front : List FlumePoolLink) (v : FlumePoolLink) :
    getFlumeClientPool (front ++ [v]) = some (v.FlumePool, v :: front) := by
  simp [getFlumeClientPool, Back_concat, MoveToFront, eraseIdx_concat_length]

theorem selectedLink_concat (front : List FlumePoolLink) (v : FlumePoolLink) :
    selectedLink (front ++ [v]) = some v := by
  simp [selectedLink, Back_concat]

theorem getFlumeClientPoolN_append (back front : List FlumePoolLink) :
    getFlumeClientPoolN back.length (front ++ back)
      = some (back.reverse.map (fun l => l.FlumePool), back ++ front) := by
  induction back using List.reverseRecOn generalizing front with
  | nil => simp [getFlumeClientPoolN]
  | append_singleton back v ih =>
    have hlen : (back ++ [v]).length = back.length + 1 := by simp
    rw [hlen, ← List.append_assoc]
    simp only [getFlumeClientPoolN, getFlumeClientPool_concat]
    have h := ih (v :: front)
    simp only [List.cons_append] at h
    rw [h]
    simp

theorem selectedLinksN_append (back front : List FlumePoolLink) :
    selectedLinksN back.length (front ++ back) = back.reverse := by
  induction back using List.reverseRecOn generalizing front with
  | nil => simp [selectedLinksN]
  | append_singleton back v ih =>
    have hlen : (back ++ [v]).length = back.length + 1 := by simp
    rw [hlen, ← List.append_assoc]
    simp only [selectedLinksN, getFlumeClientPool_concat, selectedLink_concat]
    have h := ih (v :: front)
    simp only [List.cons_append] at h
    rw [h]
    simp

theorem selectedLink_second_call (front : List FlumePoolLink) (v : FlumePoolLink)
    (hlen : 2 ≤ (front ++ [v]).length) (hnd : (front ++ [v]).Nodup) :
    selectedLink (v :: front) = front.getLast? ∧
      selectedLink (v :: front) ≠ selectedLink (front ++ [v]) := by
  rcases List.eq_nil_or_concat front with hf | ⟨front1, w, hf⟩
  · subst hf
    simp at hlen
  · rw [List.concat_eq_append] at hf
    subst hf
    have h1 : selectedLink (v :: (front1 ++ [w])) = some w := by
      have := selectedLink_concat (v :: front1) w
      simpa using this
    refine ⟨by rw [h1]; simp, ?_⟩
    rw [h1, selectedLink_concat]
    intro hwv
    have hwv1 : w = v := Option.some.inj hwv
    subst hwv1
    have hmem : w ∈ front1 ++ [w] := by simp
    exact (List.nodup_append.mp hnd).2.2 hmem (by simp)

/-- C10: on every non-empty rotation list a call of `getFlumeClientPool`
returns the pool of the link at the back and moves that link to the front,
which keeps the links of the list; as many consecutive calls as the list has
links select every link once, in back-to-front order of the original list,
and leave the list in its original order; on a list of at least two distinct
links the second of two consecutive calls selects the link that was second
from the back, never the link selected by the first; on the empty list the
call faults. -/
theorem getFlumeClientPool_round_robin (links : List FlumePoolLink) (hne : links ≠ []) :
    getFlumeClientPool links
        = some ((links.getLast hne).FlumePool, links.getLast hne :: links.dropLast) ∧
    selectedLink links = some (links.getLast hne) ∧
    (links.getLast hne :: links.dropLast).Perm links ∧
    getFlumeClientPoolN links.length links
        = some (links.reverse.map (fun l => l.FlumePool), links) ∧
    selectedLinksN links.length links = links.reverse ∧
    (2 ≤ links.length → links.Nodup →
      selectedLink (links.getLast hne :: links.dropLast) = links.dropLast.getLast? ∧
      selectedLink (links.getLast hne :: links.dropLast) ≠ selectedLink links) ∧
    getFlumeClientPool [] = none := by
  rcases List.eq_nil_or_concat links with hl | ⟨front, v, hl⟩
  · exact absurd hl hne
  · rw [List.concat_eq_append] at hl
    subst hl
    have hN := getFlumeClientPoolN_append (front ++ [v]) []
    have hS := selectedLinksN_append (front ++ [v]) []
    simp only [List.nil_append, List.append_nil] at hN hS
    refine ⟨?_, ?_, ?_, hN, hS, ?_, ?_⟩
    · simp [getFlumeClientPool_concat]
    · simp [selectedLink_concat]
    · simp only [List.getLast_append_singleton, List.dropLast_concat]
      exact (List.perm_append_singleton v front).symm
    · intro hlen hnd
      simp only [List.getLast_append_singleton, List.dropLast_concat]
      exact selectedLink_second_call front v hlen hnd
    · simp [getFlumeClientPool, Back]

/-- C10 on a rotation list of three links. -/
theorem getFlumeClientPool_round_robin_witness :
    ([⟨1, 11⟩, ⟨2, 12⟩, ⟨3, 13⟩] : List FlumePoolLink) ≠ [] ∧
    getFlumeClientPool [⟨1, 11⟩, ⟨2, 12⟩, ⟨3, 13⟩]
      = some (13, [⟨3, 13⟩, ⟨1, 11⟩, ⟨2, 12⟩]) ∧
    getFlumeClientPoolN 3 [⟨1, 11⟩, ⟨2, 12⟩, ⟨3, 13⟩]
      = some ([13, 12, 11], [⟨1, 11⟩, ⟨2, 12⟩, ⟨3, 13⟩]) ∧
    selectedLinksN ([⟨1, 11⟩, ⟨2, 12⟩, ⟨3, 13⟩] : List FlumePoolLink).length
        [⟨1, 11⟩, ⟨2, 12⟩, ⟨3, 13⟩]
      = ([⟨1, 11⟩, ⟨2, 12⟩, ⟨3, 13⟩] : List FlumePoolLink).reverse :=
  ⟨by decide, by decide, by decide,
    (getFlumeClientPool_round_robin [⟨1, 11⟩, ⟨2, 12⟩, ⟨3, 13⟩] (by decide)).2.2.2.2.1⟩

/-! ## `stop` -/

theorem detachWalk_eq_take {ε : Type} (links : List FlumePoolLink) (business : String)
    (n : Nat) (hn : n ≤ links.length) :
    detachWalk (ε := ε) links business n
      = (links.take n).reverse.map (fun l => Effect.detachBusiness l business) := by
  induction n with
  | zero => simp [detachWalk]
  | succ n ih =>
    have hlt : n < links.length := hn
    have hget : links[n]? = some links[n] := List.getElem?_eq_getElem hlt
    simp only [detachWalk, hget]
    rw [ih (Nat.le_of_lt hlt), List.take_succ, hget]
    simp only [Option.toList, List.reverse_append, List.reverse_cons, List.reverse_nil,
      List.nil_append, List.map_append, List.map_cons, List.map_nil, List.singleton_append,
      List.cons_append]

theorem stop_walk_start (links : List FlumePoolLink) :
    (match Back links with
      | none => 0
      | some e => e + 1) = links.length := by
  unfold Back
  split_ifs with h
  · simp [h]
  · exact Nat.sub_add_cancel (Nat.pos_of_ne_zero h)

theorem detachBusiness_injective {ε : Type} (business : String) :
    Function.Injective (fun l : FlumePoolLink => (Effect.detachBusiness l business : Effect ε)) := by
  intro a b h
  simpa using h

/-- C9: for every rotation list, of any length, `stop` sets `isStop`, then,
after the grace period, calls `DetachBusiness` with the pipeline's business
on the links of the list from the back to the front, on each link as many
times as it is in the list (once for a list of distinct links) and on
nothing else, and only then closes the ingest buffer; the rotation list is
left as it was.  The call faults only at the final close, and only when the
buffer had already been closed. -/
theorem stop_detaches_every_link {ε : Type} [DecidableEq ε] (self : SourceServer ε) :
    self.stop.server.isStop = true ∧
    self.stop.trace
        = [Effect.sleep 5]
          ++ self.flumeClientPool.reverse.map (fun l => Effect.detachBusiness l self.business)
          ++ [Effect.closeBuff] ∧
    (∀ link : FlumePoolLink,
      self.stop.trace.count (Effect.detachBusiness link self.business)
        = self.flumeClientPool.count link) ∧
    (self.flumeClientPool.Nodup → ∀ link ∈ self.flumeClientPool,
      self.stop.trace.count (Effect.detachBusiness link self.business) = 1) ∧
    (∀ (link : FlumePoolLink) (business : String),
      Effect.detachBusiness link business ∈ self.stop.trace →
        link ∈ self.flumeClientPool ∧ business = self.business) ∧
    self.stop.server.flumeClientPool = self.flumeClientPool ∧
    self.stop.server.buffChannel.closed = true ∧
    self.stop.panicked = self.buffChannel.closed := by
  have htrace : self.stop.trace
      = [Effect.sleep 5]
        ++ self.flumeClientPool.reverse.map (fun l => Effect.detachBusiness l self.business)
        ++ [Effect.closeBuff] := by
    unfold SourceServer.stop
    simp only
    rw [stop_walk_start, detachWalk_eq_take _ _ _ (Nat.le_refl _), List.take_length]
  have hcount : ∀ link : FlumePoolLink,
      self.stop.trace.count (Effect.detachBusiness link self.business)
        = self.flumeClientPool.count link := by
    intro link
    rw [htrace]
    simp only [List.count_append]
    have h1 := List.count_map_of_injective self.flumeClientPool.reverse
      (fun l : FlumePoolLink => (Effect.detachBusiness l self.business : Effect ε))
      (detachBusiness_injective self.business) link
    simp only [] at h1
    rw [h1, List.count_reverse]
    simp
  refine ⟨rfl, htrace, hcount, ?_, ?_, rfl, rfl, rfl⟩
  · intro hnd link hmem
    rw [hcount link]
    exact List.count_eq_one_of_mem hnd hmem
  · intro link business hmem
    rw [htrace] at hmem
    simp only [List.mem_append, List.mem_singleton, List.mem_map, List.mem_reverse,
      List.mem_cons, List.not_mem_nil, reduceCtorEq, or_false, false_or,
      Effect.detachBusiness.injEq] at hmem
    obtain ⟨l, hl, hlink, hbiz⟩ := hmem
    exact ⟨hlink ▸ hl, hbiz.symm⟩

/-- C9 on a pipeline with two links. -/
theorem stop_detaches_every_link_witness :
    ([⟨1, 11⟩, ⟨2, 12⟩] : List FlumePoolLink).Nodup ∧
    (newSourceServer "biz" [⟨1, 11⟩, ⟨2, 12⟩] : SourceServer Nat).stop.trace
      = [Effect.sleep 5, Effect.detachBusiness ⟨2, 12⟩ "biz",
          Effect.detachBusiness ⟨1, 11⟩ "biz", Effect.closeBuff] ∧
    (newSourceServer "biz" [⟨1, 11⟩, ⟨2, 12⟩] : SourceServer Nat).stop.trace.count
      (Effect.detachBusiness ⟨1, 11⟩ "biz") = 1 :=
  ⟨by decide, by decide,
    (stop_detaches_every_link
      (newSourceServer "biz" [⟨1, 11⟩, ⟨2, 12⟩] : SourceServer Nat)).2.2.2.1
      (by decide) ⟨1, 11⟩ (by decide)⟩

/-! ## Send pipeline -/

theorem getFlumeClientPool_some (links : List FlumePoolLink) (hne : links ≠ []) :
    ∃ pool links1, getFlumeClientPool links = some (pool, links1) ∧ links1 ≠ [] := by
  rcases List.eq_nil_or_concat links with hl | ⟨front, v, hl⟩
  · exact absurd hl hne
  · rw [List.concat_eq_append] at hl
    subst hl
    exact ⟨v.FlumePool, v :: front, getFlumeClientPool_concat front v, by simp⟩

@[simp] theorem withPool_batchSize {ε : Type} (self : SourceServer ε)
    (links : List FlumePoolLink) : (self.withPool links).batchSize = self.batchSize := rfl

@[simp] theorem withPool_monitorCount {ε : Type} (self : SourceServer ε)
    (links : List FlumePoolLink) : (self.withPool links).monitorCount = self.monitorCount := rfl

@[simp] theorem withPool_flumeClientPool {ε : Type} (self : SourceServer ε)
    (links : List FlumePoolLink) : (self.withPool links).flumeClientPool = links := rfl

theorem innerSendLoop_getFail {ε : Type} (events : List ε) (world : Nat → Outcome)
    (n i : Nat) (fr : Frame ε) (pool : Nat) (links : List FlumePoolLink)
    (hget : getFlumeClientPool fr.server.flumeClientPool = some (pool, links))
    (hw : world i = Outcome.getFail) :
    innerSendLoop events world (n + 1) i fr
      = innerSendLoop events world n (i + 1)
          { server := fr.server.withPool links
            trace := fr.trace ++ [Effect.get pool none]
            defers := fr.defers } := by
  simp [innerSendLoop, hget, hw, Outcome.client]

theorem innerSendLoop_sendErr {ε : Type} (events : List ε) (world : Nat → Outcome)
    (n i : Nat) (fr : Frame ε) (pool : Nat) (links : List FlumePoolLink) (c : Client)
    (hget : getFlumeClientPool fr.server.flumeClientPool = some (pool, links))
    (hw : world i = Outcome.sendErr c) :
    innerSendLoop events world (n + 1) i fr
      = innerSendLoop events world n (i + 1)
          { server := SourceServer.addFail (fr.server.withPool links)
              (1 * fr.server.batchSize)
            trace := fr.trace ++ [Effect.get pool (some c)] ++ [Effect.appendBatch c events]
            defers := (pool, c) :: fr.defers } := by
  simp [innerSendLoop, hget, hw, Outcome.client]

theorem innerSendLoop_sendOk {ε : Type} (events : List ε) (world : Nat → Outcome)
    (n i : Nat) (fr : Frame ε) (pool : Nat) (links : List FlumePoolLink) (c : Client)
    (hget : getFlumeClientPool fr.server.flumeClientPool = some (pool, links))
    (hw : world i = Outcome.sendOk c) :
    innerSendLoop events world (n + 1) i fr
      = ({ server := SourceServer.addSucc (fr.server.withPool links)
              (1 * fr.server.batchSize)
           trace := fr.trace ++ [Effect.get pool (some c)] ++ [Effect.appendBatch c events]
           defers := (pool, c) :: fr.defers }, false) := by
  simp [innerSendLoop, hget, hw, Outcome.client]

theorem innerSendLoop_sendPanic {ε : Type} (events : List ε) (world : Nat → Outcome)
    (n i : Nat) (fr : Frame ε) (pool : Nat) (links : List FlumePoolLink) (c : Client)
    (hget : getFlumeClientPool fr.server.flumeClientPool = some (pool, links))
    (hw : world i = Outcome.sendPanic c) :
    innerSendLoop events world (n + 1) i fr
      = ({ server := fr.server.withPool links
           trace := fr.trace ++ [Effect.get pool (some c)] ++ [Effect.appendBatch c events]
           defers := fr.defers }, true) := by
  simp [innerSendLoop, hget, hw, Outcome.client]

theorem innerSendLoop_fault {ε : Type} (events : List ε) (world : Nat → Outcome)
    (n i : Nat) (fr : Frame ε)
    (hget : getFlumeClientPool fr.server.flumeClientPool = none) :
    innerSendLoop events world (n + 1) i fr = (fr, true) := by
  simp [innerSendLoop, hget]

theorem getCount_append {ε : Type} (a b : List (Effect ε)) :
    getCount (a ++ b) = getCount a + getCount b := by
  induction a with
  | nil => simp [getCount]
  | cons e a ih => cases e <;> simp [getCount, ih]; omega

theorem appendBatchCount_append {ε : Type} (a b : List (Effect ε)) :
    appendBatchCount (a ++ b) = appendBatchCount a + appendBatchCount b := by
  induction a with
  | nil => simp [appendBatchCount]
  | cons e a ih => cases e <;> simp [appendBatchCount, ih]; omega

theorem acquired_append {ε : Type} (a b : List (Effect ε)) :
    acquired (a ++ b) = acquired a ++ acquired b := by
  induction a with
  | nil => simp [acquired]
  | cons e a ih =>
    cases e with
    | get pool client => cases client <;> simp [acquired, ih]
    | _ => simp [acquired, ih]

theorem released_append {ε : Type} (a b : List (Effect ε)) :
    released (a ++ b) = released a ++ released b := by
  induction a with
  | nil => simp [released]
  | cons e a ih => cases e <;> simp [released, ih]

theorem evicted_append {ε : Type} (a b : List (Effect ε)) :
    evicted (a ++ b) = evicted a ++ evicted b := by
  induction a with
  | nil => simp [evicted]
  | cons e a ih => cases e <;> simp [evicted, ih]

theorem runDeferred_false {ε : Type} (ds : List (Nat × Client)) :
    runDeferred ε false ds = (ds.map (fun d => Effect.release d.1 d.2), false) := by
  induction ds with
  | nil => rfl
  | cons d ds ih =>
    obtain ⟨pool, c⟩ := d
    simp [runDeferred, ih]

theorem runDeferred_true_cons {ε : Type} (pool : Nat) (c : Client) (ds : List (Nat × Client)) :
    runDeferred ε true ((pool, c) :: ds)
      = (Effect.releaseBroken pool c :: ds.map (fun d => Effect.release d.1 d.2), false) := by
  simp [runDeferred, runDeferred_false]

theorem getCount_runDeferred {ε : Type} (p : Bool) (ds : List (Nat × Client)) :
    getCount (runDeferred ε p ds).1 = 0 ∧ appendBatchCount (runDeferred ε p ds).1 = 0 := by
  induction ds generalizing p with
  | nil => cases p <;> simp [runDeferred, getCount, appendBatchCount]
  | cons d ds ih =>
    obtain ⟨pool, c⟩ := d
    cases p <;> simp [runDeferred, getCount, appendBatchCount, ih]

theorem released_map_release {ε : Type} (ds : List (Nat × Client)) :
    released (ds.map (fun d => (Effect.release d.1 d.2 : Effect ε))) = ds ∧
      evicted (ds.map (fun d => (Effect.release d.1 d.2 : Effect ε))) = [] ∧
      acquired (ds.map (fun d => (Effect.release d.1 d.2 : Effect ε))) = [] := by
  induction ds with
  | nil => simp [released, evicted, acquired]
  | cons d ds ih => simp [released, evicted, acquired, ih]

/-- The loop makes at most one `Get` and one `AppendBatch` per iteration. -/
theorem innerSendLoop_counts {ε : Type} (events : List ε) (world : Nat → Outcome) :
    ∀ (n i : Nat) (fr : Frame ε),
      getCount (innerSendLoop events world n i fr).1.trace ≤ getCount fr.trace + n ∧
      appendBatchCount (innerSendLoop events world n i fr).1.trace
        ≤ appendBatchCount fr.trace + n := by
  intro n
  induction n with
  | zero => intro i fr; simp [innerSendLoop]
  | succ n ih =>
    intro i fr
    cases hget : getFlumeClientPool fr.server.flumeClientPool with
    | none =>
      rw [innerSendLoop_fault events world n i fr hget]
      constructor <;> simp
    | some r =>
      obtain ⟨pool, links⟩ := r
      cases hw : world i with
      | getFail =>
        rw [innerSendLoop_getFail events world n i fr pool links hget hw]
        have h := ih (i + 1) { server := fr.server.withPool links
                               trace := fr.trace ++ [Effect.get pool none]
                               defers := fr.defers }
        simp only [getCount_append, appendBatchCount_append, getCount, appendBatchCount] at h
        constructor <;> omega
      | sendErr c =>
        rw [innerSendLoop_sendErr events world n i fr pool links c hget hw]
        have h := ih (i + 1)
          { server := SourceServer.addFail (fr.server.withPool links)
              (1 * fr.server.batchSize)
            trace := fr.trace ++ [Effect.get pool (some c)] ++ [Effect.appendBatch c events]
            defers := (pool, c) :: fr.defers }
        simp only [getCount_append, appendBatchCount_append, getCount, appendBatchCount] at h
        constructor <;> omega
      | sendOk c =>
        rw [innerSendLoop_sendOk events world n i fr pool links c hget hw]
        simp only [getCount_append, appendBatchCount_append, getCount, appendBatchCount]
        constructor <;> omega
      | sendPanic c =>
        rw [innerSendLoop_sendPanic events world n i fr pool links c hget hw]
        simp only [getCount_append, appendBatchCount_append, getCount, appendBatchCount]
        constructor <;> omega

/-- While `Get` fails or `AppendBatch` returns an error the loop goes on: after
`m` such iterations it stands at index `i + m` having made `m` calls of
`Get`, added `batchSize` to `currFailValue` once per returned error and left
`currSuccValue` alone. -/
theorem innerSendLoop_prefix {ε : Type} (events : List ε) (world : Nat → Outcome) :
    ∀ (m n i : Nat) (fr : Frame ε), fr.server.flumeClientPool ≠ [] →
      (∀ j, j < m → world (i + j) = Outcome.getFail ∨ ∃ c, world (i + j) = Outcome.sendErr c) →
      ∃ fr1 : Frame ε,
        innerSendLoop events world (m + n) i fr = innerSendLoop events world n (i + m) fr1 ∧
        fr1.server.flumeClientPool ≠ [] ∧
        fr1.server.batchSize = fr.server.batchSize ∧
        fr1.server.monitorCount.currSuccValue = fr.server.monitorCount.currSuccValue ∧
        fr1.server.monitorCount.currFailValue
          = (fun v => wrap64 (v + (fr.server.batchSize : Int)))^[errCount world m i]
              fr.server.monitorCount.currFailValue ∧
        getCount fr1.trace = getCount fr.trace + m ∧
        appendBatchCount fr1.trace = appendBatchCount fr.trace + errCount world m i := by
  intro m
  induction m with
  | zero =>
    intro n i fr hne _
    exact ⟨fr, by simp, hne, rfl, rfl, by simp [errCount], by simp, by simp [errCount]⟩
  | succ m ih =>
    intro n i fr hne hw
    obtain ⟨pool, links, hget, hne1⟩ := getFlumeClientPool_some _ hne
    have h0 := hw 0 (by omega)
    simp only [Nat.add_zero] at h0
    have hrest : ∀ j, j < m →
        world (i + 1 + j) = Outcome.getFail ∨ ∃ c, world (i + 1 + j) = Outcome.sendErr c := by
      intro j hj
      have h := hw (j + 1) (by omega)
      rwa [show i + (j + 1) = i + 1 + j by omega] at h
    have hn : m + 1 + n = (m + n) + 1 := by omega
    have hi : i + 1 + m = i + (m + 1) := by omega
    rw [hn]
    rcases h0 with h0 | ⟨c, h0⟩
    · obtain ⟨fr1, heq, h1, h2, h3, h4, h5, h6⟩ := ih n (i + 1)
        { server := fr.server.withPool links
          trace := fr.trace ++ [Effect.get pool none]
          defers := fr.defers } hne1 hrest
      refine ⟨fr1, ?_, h1, h2, h3, ?_, ?_, ?_⟩
      · rw [innerSendLoop_getFail events world (m + n) i fr pool links hget h0, heq, hi]
      · rw [h4]; simp [errCount, h0]
      · rw [h5]; simp only [getCount_append, getCount]; omega
      · rw [h6]; simp only [appendBatchCount_append, appendBatchCount, errCount, h0]; omega
    · obtain ⟨fr1, heq, h1, h2, h3, h4, h5, h6⟩ := ih n (i + 1)
        { server := SourceServer.addFail (fr.server.withPool links)
            (1 * fr.server.batchSize)
          trace := fr.trace ++ [Effect.get pool (some c)] ++ [Effect.appendBatch c events]
          defers := (pool, c) :: fr.defers } hne1 hrest
      refine ⟨fr1, ?_, h1, h2, h3, ?_, ?_, ?_⟩
      · rw [innerSendLoop_sendErr events world (m + n) i fr pool links c hget h0, heq, hi]
      · rw [h4]
        simp only [errCount, h0, SourceServer.addFail]
        rw [Nat.add_comm 1, Function.iterate_succ_apply]
        simp
      · rw [h5]; simp only [getCount_append, getCount]; omega
      · rw [h6]; simp only [appendBatchCount_append, appendBatchCount, errCount, h0]; omega

theorem innerSendLoop_trace_grows {ε : Type} (events : List ε) (world : Nat → Outcome) :
    ∀ (n i : Nat) (fr : Frame ε),
      ∃ t, (innerSendLoop events world n i fr).1.trace = fr.trace ++ t := by
  intro n
  induction n with
  | zero => intro i fr; exact ⟨[], by simp [innerSendLoop]⟩
  | succ n ih =>
    intro i fr
    cases hget : getFlumeClientPool fr.server.flumeClientPool with
    | none =>
      rw [innerSendLoop_fault events world n i fr hget]
      exact ⟨[], by simp⟩
    | some r =>
      obtain ⟨pool, links⟩ := r
      cases hw : world i with
      | getFail =>
        rw [innerSendLoop_getFail events world n i fr pool links hget hw]
        obtain ⟨t, ht⟩ := ih (i + 1) { server := fr.server.withPool links
                                       trace := fr.trace ++ [Effect.get pool none]
                                       defers := fr.defers }
        exact ⟨[Effect.get pool none] ++ t, by rw [ht]; simp⟩
      | sendErr c =>
        rw [innerSendLoop_sendErr events world n i fr pool links c hget hw]
        obtain ⟨t, ht⟩ := ih (i + 1)
          { server := SourceServer.addFail (fr.server.withPool links)
              (1 * fr.server.batchSize)
            trace := fr.trace ++ [Effect.get pool (some c)] ++ [Effect.appendBatch c events]
            defers := (pool, c) :: fr.defers }
        exact ⟨[Effect.get pool (some c)] ++ [Effect.appendBatch c events] ++ t,
          by rw [ht]; simp⟩
      | sendOk c =>
        rw [innerSendLoop_sendOk events world n i fr pool links c hget hw]
        exact ⟨[Effect.get pool (some c)] ++ [Effect.appendBatch c events], by simp⟩
      | sendPanic c =>
        rw [innerSendLoop_sendPanic events world n i fr pool links c hget hw]
        exact ⟨[Effect.get pool (some c)] ++ [Effect.appendBatch c events], by simp⟩

/-- In a run where no `AppendBatch` call panics the loop is left normally,
nothing has been released inside the loop, and the deferred closures are
those of the clients handed out, the most recent first. -/
theorem innerSendLoop_no_panic {ε : Type} (events : List ε) (world : Nat → Outcome) :
    ∀ (n i : Nat) (fr : Frame ε), fr.server.flumeClientPool ≠ [] →
      (∀ j, j < n → ∀ c, world (i + j) ≠ Outcome.sendPanic c) →
      acquired fr.trace = fr.defers.reverse → released fr.trace = [] →
      evicted fr.trace = [] →
      (innerSendLoop events world n i fr).2 = false ∧
      acquired (innerSendLoop events world n i fr).1.trace
        = (innerSendLoop events world n i fr).1.defers.reverse ∧
      released (innerSendLoop events world n i fr).1.trace = [] ∧
      evicted (innerSendLoop events world n i fr).1.trace = [] := by
  intro n
  induction n with
  | zero => intro i fr _ _ ha hr he; exact ⟨rfl, ha, hr, he⟩
  | succ n ih =>
    intro i fr hne hnp ha hr he
    obtain ⟨pool, links, hget, hne1⟩ := getFlumeClientPool_some _ hne
    have hrest : ∀ j, j < n → ∀ c, world (i + 1 + j) ≠ Outcome.sendPanic c := by
      intro j hj c
      have h := hnp (j + 1) (by omega) c
      rwa [show i + (j + 1) = i + 1 + j by omega] at h
    cases hw : world i with
    | getFail =>
      rw [innerSendLoop_getFail events world n i fr pool links hget hw]
      exact ih (i + 1) _ hne1 hrest
        (by simp [acquired_append, acquired, ha])
        (by simp [released_append, released, hr])
        (by simp [evicted_append, evicted, he])
    | sendErr c =>
      rw [innerSendLoop_sendErr events world n i fr pool links c hget hw]
      exact ih (i + 1) _ hne1 hrest
        (by simp [acquired_append, acquired, ha])
        (by simp [released_append, released, hr])
        (by simp [evicted_append, evicted, he])
    | sendOk c =>
      rw [innerSendLoop_sendOk events world n i fr pool links c hget hw]
      exact ⟨rfl, by simp [acquired_append, acquired, ha],
        by simp [released_append, released, hr], by simp [evicted_append, evicted, he]⟩
    | sendPanic c =>
      exact absurd hw (by have h := hnp 0 (by omega) c; simpa using h)

theorem iterate_add_exact (b : Int) (hb : 0 ≤ b) :
    ∀ (e : Nat) (x : Int), inInt64 x → inInt64 (x + b * e) →
      (fun v => wrap64 (v + b))^[e] x = x + b * e := by
  intro e
  induction e with
  | zero => intro x _ _; simp
  | succ e ih =>
    intro x hx hxe
    have hmul : b * ((e + 1 : Nat) : Int) = b * (e : Int) + b := by push_cast; ring
    have hnn : 0 ≤ b * (e : Int) := Int.mul_nonneg hb (Int.ofNat_nonneg e)
    rw [hmul] at hxe
    have hxb : inInt64 (x + b) := by
      unfold inInt64 at hx hxe ⊢
      omega
    rw [Function.iterate_succ_apply, wrap64_of_inInt64 _ hxb,
      ih (x + b) hxb (by unfold inInt64 at hxe ⊢; omega), hmul]
    omega

theorem errCount_all_sendErr (world : Nat → Outcome) :
    ∀ (m i : Nat), (∀ j, j < m → ∃ c, world (i + j) = Outcome.sendErr c) →
      errCount world m i = m := by
  intro m
  induction m with
  | zero => intro i _; rfl
  | succ m ih =>
    intro i h
    obtain ⟨c, hc⟩ := h 0 (by omega)
    simp only [Nat.add_zero] at hc
    have hrest : ∀ j, j < m → ∃ c, world (i + 1 + j) = Outcome.sendErr c := by
      intro j hj
      have h1 := h (j + 1) (by omega)
      rwa [show i + (j + 1) = i + 1 + j by omega] at h1
    simp only [errCount, hc, ih (i + 1) hrest]
    omega

theorem errCount_all_getFail (world : Nat → Outcome) :
    ∀ (m i : Nat), (∀ j, j < m → world (i + j) = Outcome.getFail) →
      errCount world m i = 0 := by
  intro m
  induction m with
  | zero => intro i _; rfl
  | succ m ih =>
    intro i h
    have hc := h 0 (by omega)
    simp only [Nat.add_zero] at hc
    have hrest : ∀ j, j < m → world (i + 1 + j) = Outcome.getFail := by
      intro j hj
      have h1 := h (j + 1) (by omega)
      rwa [show i + (j + 1) = i + 1 + j by omega] at h1
    simp only [errCount, hc, ih (i + 1) hrest]

/-- C3 (as amended): for every batch, whatever the number of its events, and
every k with 1 ≤ k ≤ 3, if the rotation list is not empty, every acquisition
succeeds, `AppendBatch` returns an error on attempts 1..k-1 and succeeds on
attempt k, and the additions do not overflow, then `innerSend` returns
normally having increased `currSuccValue` by exactly `batchSize` and
`currFailValue` by exactly `batchSize * (k - 1)`. -/
theorem innerSend_success_adds_batchSize {ε : Type} (self : SourceServer ε)
    (events : List ε) (world : Nat → Outcome) (k : Nat)
    (hne : self.flumeClientPool ≠ []) (hk1 : 1 ≤ k) (hk3 : k ≤ 3)
    (herr : ∀ j, j < k - 1 → ∃ c, world j = Outcome.sendErr c)
    (hok : ∃ c, world (k - 1) = Outcome.sendOk c)
    (hs : inInt64 (self.monitorCount.currSuccValue + (self.batchSize : Int)))
    (hf0 : inInt64 self.monitorCount.currFailValue)
    (hf : inInt64 (self.monitorCount.currFailValue
      + (self.batchSize : Int) * ((k - 1 : Nat) : Int))) :
    (self.innerSend events world).server.monitorCount.currSuccValue
        = self.monitorCount.currSuccValue + (self.batchSize : Int) ∧
    (self.innerSend events world).server.monitorCount.currFailValue
        = self.monitorCount.currFailValue + (self.batchSize : Int) * ((k - 1 : Nat) : Int) ∧
    (self.innerSend events world).panicked = false := by
  obtain ⟨c, hc⟩ := hok
  have hpre : ∀ j, j < k - 1 →
      world (0 + j) = Outcome.getFail ∨ ∃ c, world (0 + j) = Outcome.sendErr c := by
    intro j hj
    rw [Nat.zero_add]
    exact Or.inr (herr j hj)
  have hall : ∀ j, j < k - 1 → ∃ c, world (0 + j) = Outcome.sendErr c := by
    intro j hj
    rw [Nat.zero_add]
    exact herr j hj
  obtain ⟨fr1, heq, h1, h2, h3, h4, _, _⟩ :=
    innerSendLoop_prefix events world (k - 1) (3 - k + 1) 0
      { server := self, trace := [], defers := [] } hne hpre
  obtain ⟨pool, links, hget, _⟩ := getFlumeClientPool_some _ h1
  have h3k : 3 = k - 1 + (3 - k + 1) := by omega
  have hloop : innerSendLoop events world 3 0 { server := self, trace := [], defers := [] }
      = ({ server := SourceServer.addSucc (fr1.server.withPool links)
              (1 * fr1.server.batchSize)
           trace := fr1.trace ++ [Effect.get pool (some c)] ++ [Effect.appendBatch c events]
           defers := (pool, c) :: fr1.defers }, false) := by
    rw [h3k, heq]
    exact innerSendLoop_sendOk events world (3 - k) (0 + (k - 1)) fr1 pool links c hget
      (by rw [Nat.zero_add]; exact hc)
  simp only [] at h2 h3 h4
  rw [errCount_all_sendErr world (k - 1) 0 hall,
    iterate_add_exact _ (Int.ofNat_nonneg _) (k - 1) _ hf0 hf] at h4
  unfold SourceServer.innerSend
  simp only [hloop, runDeferred_false]
  refine ⟨?_, ?_, trivial⟩
  · simp only [SourceServer.addSucc, withPool_monitorCount, withPool_batchSize, h2, h3]
    rw [Int.one_mul]
    exact wrap64_of_inInt64 _ hs
  · simp only [SourceServer.addSucc, withPool_monitorCount]
    exact h4

/-- C3 at k = 2 on a fresh pipeline with batch size 300 and a batch of one
event. -/
theorem innerSend_success_adds_batchSize_witness :
    (SourceServer.innerSend (newSourceServer "biz" [⟨1, 11⟩, ⟨2, 12⟩] : SourceServer Nat) [5]
        (scriptOf [Outcome.sendErr 7, Outcome.sendOk 8])).server.monitorCount.currSuccValue
      = 0 + 300 ∧
    (SourceServer.innerSend (newSourceServer "biz" [⟨1, 11⟩, ⟨2, 12⟩] : SourceServer Nat) [5]
        (scriptOf [Outcome.sendErr 7, Outcome.sendOk 8])).server.monitorCount.currFailValue
      = 0 + 300 * ((2 - 1 : Nat) : Int) ∧
    (SourceServer.innerSend (newSourceServer "biz" [⟨1, 11⟩, ⟨2, 12⟩] : SourceServer Nat) [5]
        (scriptOf [Outcome.sendErr 7, Outcome.sendOk 8])).panicked = false :=
  innerSend_success_adds_batchSize
    (newSourceServer "biz" [⟨1, 11⟩, ⟨2, 12⟩] : SourceServer Nat) [5]
    (scriptOf [Outcome.sendErr 7, Outcome.sendOk 8]) 2
    (by decide) (by decide) (by decide)
    (fun j hj => ⟨7, by
      have hj0 : j = 0 := by omega
      subst hj0
      rfl⟩)
    ⟨8, rfl⟩ (by decide) (by decide) (by decide)

/-- C3 (the claim as stated fails): a batch of one event delivered at the
first attempt by a pipeline of batch size 300 increases `currSuccValue` by
300, not by the one event of the batch. -/
theorem innerSend_success_not_event_count :
    (1 ≤ 1 ∧ 1 ≤ 3 ∧ ([5] : List Nat).length ≤
      (newSourceServer "biz" [⟨1, 11⟩] : SourceServer Nat).batchSize) ∧
    (SourceServer.innerSend (newSourceServer "biz" [⟨1, 11⟩] : SourceServer Nat) [5]
        (scriptOf [Outcome.sendOk 8])).server.monitorCount.currSuccValue = 300 ∧
    (SourceServer.innerSend (newSourceServer "biz" [⟨1, 11⟩] : SourceServer Nat) [5]
        (scriptOf [Outcome.sendOk 8])).server.monitorCount.currSuccValue
      ≠ (newSourceServer "biz" [⟨1, 11⟩] : SourceServer Nat).monitorCount.currSuccValue
        + (([5] : List Nat).length : Int) := by
  decide

/-- C4 (as amended): in every run of `innerSend` on a non-empty rotation list
in which no `AppendBatch` call panics, `ReleaseBroken` is not called at all;
the clients given to `Release` are exactly the clients handed out by `Get`,
each with its own pool, in the reverse of the order they were handed out; in
particular the client of every attempt that is reached and whose
`AppendBatch` returned an error is given to `Release` with its pool, and so is
the client of the attempt whose `AppendBatch` succeeded. -/
theorem innerSend_releases_returned_clients {ε : Type} (self : SourceServer ε)
    (events : List ε) (world : Nat → Outcome)
    (hne : self.flumeClientPool ≠ [])
    (hnp : ∀ j, j < 3 → ∀ c, world j ≠ Outcome.sendPanic c) :
    (self.innerSend events world).panicked = false ∧
    evicted (self.innerSend events world).trace = [] ∧
    released (self.innerSend events world).trace
        = (acquired (self.innerSend events world).trace).reverse ∧
    (∀ k c, k < 3 →
      (∀ j, j < k → world j = Outcome.getFail ∨ ∃ d, world j = Outcome.sendErr d) →
      (world k = Outcome.sendErr c ∨ world k = Outcome.sendOk c) →
      ∃ pool, (pool, c) ∈ released (self.innerSend events world).trace) := by
  have hnp0 : ∀ j, j < 3 → ∀ c, world (0 + j) ≠ Outcome.sendPanic c := by
    intro j hj c
    rw [Nat.zero_add]
    exact hnp j hj c
  obtain ⟨hflag, hacq, hrel, hev⟩ :=
    innerSendLoop_no_panic events world 3 0 { server := self, trace := [], defers := [] }
      hne hnp0 rfl rfl rfl
  have htrace : (self.innerSend events world).trace
      = (innerSendLoop events world 3 0 { server := self, trace := [], defers := [] }).1.trace
        ++ (innerSendLoop events world 3 0
              { server := self, trace := [], defers := [] }).1.defers.map
            (fun d => Effect.release d.1 d.2) := by
    unfold SourceServer.innerSend
    simp only [hflag, runDeferred_false]
  have hpan : (self.innerSend events world).panicked = false := by
    unfold SourceServer.innerSend
    simp only [hflag, runDeferred_false]
  have hreleased : released (self.innerSend events world).trace
      = (innerSendLoop events world 3 0
          { server := self, trace := [], defers := [] }).1.defers := by
    rw [htrace, released_append, hrel, (released_map_release _).1]
    simp
  have hacquired : acquired (self.innerSend events world).trace
      = (innerSendLoop events world 3 0
          { server := self, trace := [], defers := [] }).1.defers.reverse := by
    rw [htrace, acquired_append, hacq, (released_map_release _).2.2]
    simp
  refine ⟨hpan, ?_, ?_, ?_⟩
  · rw [htrace, evicted_append, hev, (released_map_release _).2.1]
    simp
  · rw [hreleased, hacquired, List.reverse_reverse]
  · intro k c hk hpre hwk
    have hpre0 : ∀ j, j < k →
        world (0 + j) = Outcome.getFail ∨ ∃ d, world (0 + j) = Outcome.sendErr d := by
      intro j hj
      rw [Nat.zero_add]
      exact hpre j hj
    obtain ⟨fr1, heq, h1, _, _, _, _, _⟩ :=
      innerSendLoop_prefix events world k (3 - k - 1 + 1) 0
        { server := self, trace := [], defers := [] } hne hpre0
    obtain ⟨pool, links, hget, _⟩ := getFlumeClientPool_some _ h1
    have h3k : 3 = k + (3 - k - 1 + 1) := by omega
    have hin : (pool, c) ∈ acquired (innerSendLoop events world 3 0
        { server := self, trace := [], defers := [] }).1.trace := by
      rw [h3k, heq]
      rcases hwk with hwk | hwk
      · rw [innerSendLoop_sendErr events world (3 - k - 1) (0 + k) fr1 pool links c hget
          (by rw [Nat.zero_add]; exact hwk)]
        obtain ⟨t, ht⟩ := innerSendLoop_trace_grows events world (3 - k - 1) (0 + k + 1)
          { server := SourceServer.addFail (fr1.server.withPool links)
              (1 * fr1.server.batchSize)
            trace := fr1.trace ++ [Effect.get pool (some c)] ++ [Effect.appendBatch c events]
            defers := (pool, c) :: fr1.defers }
        rw [ht]
        simp [acquired_append, acquired]
      · rw [innerSendLoop_sendOk events world (3 - k - 1) (0 + k) fr1 pool links c hget
          (by rw [Nat.zero_add]; exact hwk)]
        simp [acquired_append, acquired]
    refine ⟨pool, ?_⟩
    rw [hreleased]
    rw [hacq] at hin
    exact List.mem_reverse.mp hin

/-- C4 on a run whose first delivery returns an error and whose second
succeeds. -/
theorem innerSend_releases_returned_clients_witness :
    (newSourceServer "biz" [⟨1, 11⟩, ⟨2, 12⟩] : SourceServer Nat).flumeClientPool ≠ [] ∧
    evicted (SourceServer.innerSend
      (newSourceServer "biz" [⟨1, 11⟩, ⟨2, 12⟩] : SourceServer Nat) [5]
      (scriptOf [Outcome.sendErr 7, Outcome.sendOk 8])).trace = [] ∧
    released (SourceServer.innerSend
      (newSourceServer "biz" [⟨1, 11⟩, ⟨2, 12⟩] : SourceServer Nat) [5]
      (scriptOf [Outcome.sendErr 7, Outcome.sendOk 8])).trace = [(11, 8), (12, 7)] :=
  ⟨by decide,
    (innerSend_releases_returned_clients
      (newSourceServer "biz" [⟨1, 11⟩, ⟨2, 12⟩] : SourceServer Nat) [5]
      (scriptOf [Outcome.sendErr 7, Outcome.sendOk 8]) (by decide)
      (fun j hj c => by
        have hj3 : j = 0 ∨ j = 1 ∨ j = 2 := by omega
        rcases hj3 with h | h | h <;> subst h <;> simp [scriptOf])).2.1,
    by decide⟩

/-- C4 (the claim as stated fails): the client 7 of pool 12, whose
`AppendBatch` returned an error at the first attempt, is given to `Release`
when `innerSend` returns and is not given to `ReleaseBroken`. -/
theorem innerSend_error_client_released :
    (SourceServer.innerSend (newSourceServer "biz" [⟨1, 11⟩, ⟨2, 12⟩] : SourceServer Nat) [5]
        (scriptOf [Outcome.sendErr 7, Outcome.sendOk 8])).trace
      = [Effect.get 12 (some 7), Effect.appendBatch 7 [5], Effect.get 11 (some 8),
          Effect.appendBatch 8 [5], Effect.release 11 8, Effect.release 12 7] ∧
    Effect.release 12 7 ∈
      (SourceServer.innerSend (newSourceServer "biz" [⟨1, 11⟩, ⟨2, 12⟩] : SourceServer Nat) [5]
        (scriptOf [Outcome.sendErr 7, Outcome.sendOk 8])).trace ∧
    Effect.releaseBroken 12 7 ∉
      (SourceServer.innerSend (newSourceServer "biz" [⟨1, 11⟩, ⟨2, 12⟩] : SourceServer Nat) [5]
        (scriptOf [Outcome.sendErr 7, Outcome.sendOk 8])).trace := by
  decide

/-- C5 (behaviour of the code when the delivery call panics).  When
`AppendBatch` panics at the first attempt the client 7 already handed out by
pool 12 is given neither to `Release` nor to `ReleaseBroken` and the panic
leaves `innerSend`.  When it panics at the second attempt, after an attempt
that returned an error, the panic is recovered, but the panicking attempt's
client 8 is still not given back and `ReleaseBroken` is called on client 7 of
the earlier attempt. -/
theorem innerSend_panic_leaks_client :
    (SourceServer.innerSend (newSourceServer "biz" [⟨1, 11⟩, ⟨2, 12⟩] : SourceServer Nat) [5]
        (scriptOf [Outcome.sendPanic 7])).trace
      = [Effect.get 12 (some 7), Effect.appendBatch 7 [5]] ∧
    (SourceServer.innerSend (newSourceServer "biz" [⟨1, 11⟩, ⟨2, 12⟩] : SourceServer Nat) [5]
        (scriptOf [Outcome.sendPanic 7])).panicked = true ∧
    (SourceServer.innerSend (newSourceServer "biz" [⟨1, 11⟩, ⟨2, 12⟩] : SourceServer Nat) [5]
        (scriptOf [Outcome.sendErr 7, Outcome.sendPanic 8])).trace
      = [Effect.get 12 (some 7), Effect.appendBatch 7 [5], Effect.get 11 (some 8),
          Effect.appendBatch 8 [5], Effect.releaseBroken 12 7] ∧
    (SourceServer.innerSend (newSourceServer "biz" [⟨1, 11⟩, ⟨2, 12⟩] : SourceServer Nat) [5]
        (scriptOf [Outcome.sendErr 7, Outcome.sendPanic 8])).panicked = false := by
  decide

theorem innerSend_trace_counts {ε : Type} (self : SourceServer ε) (events : List ε)
    (world : Nat → Outcome) :
    getCount (self.innerSend events world).trace
        = getCount (innerSendLoop events world 3 0
            { server := self, trace := [], defers := [] }).1.trace ∧
    appendBatchCount (self.innerSend events world).trace
        = appendBatchCount (innerSendLoop events world 3 0
            { server := self, trace := [], defers := [] }).1.trace := by
  unfold SourceServer.innerSend
  simp only [getCount_append, appendBatchCount_append, (getCount_runDeferred _ _).1,
    (getCount_runDeferred _ _).2, Nat.add_zero, and_self]

theorem innerSend_server {ε : Type} (self : SourceServer ε) (events : List ε)
    (world : Nat → Outcome) :
    (self.innerSend events world).server
      = (innerSendLoop events world 3 0 { server := self, trace := [], defers := [] }).1.server :=
  rfl

theorem innerSend_panicked_of_loop {ε : Type} (self : SourceServer ε) (events : List ε)
    (world : Nat → Outcome)
    (h : (innerSendLoop events world 3 0
      { server := self, trace := [], defers := [] }).2 = false) :
    (self.innerSend events world).panicked = false := by
  unfold SourceServer.innerSend
  simp only [h, runDeferred_false]

/-- C6 (as amended): `innerSend` calls `Get` at most 3 times and `AppendBatch`
at most 3 times, whatever the collaborators answer.  On a non-empty rotation
list: when
the first successful delivery is at attempt k + 1 (every earlier attempt
failing to acquire or returning an error), exactly k + 1 calls of `Get` are
made, none after the success, and `innerSend` returns; when each of the three
attempts fails to acquire or returns an error, exactly 3 calls of `Get` are
made and `innerSend` returns with `currSuccValue` unchanged.  In both cases
`batchSize` is added to `currFailValue` once per attempt whose `AppendBatch`
returned an error and never for a failed acquisition; when all three
acquisitions fail, `AppendBatch` is not called and the counters are
unchanged. -/
theorem innerSend_attempt_bound {ε : Type} (self : SourceServer ε) (events : List ε)
    (world : Nat → Outcome) :
    getCount (self.innerSend events world).trace ≤ 3 ∧
    appendBatchCount (self.innerSend events world).trace ≤ 3 ∧
    (self.flumeClientPool ≠ [] →
      (∀ k c, k < 3 →
        (∀ j, j < k → world j = Outcome.getFail ∨ ∃ d, world j = Outcome.sendErr d) →
        world k = Outcome.sendOk c →
        getCount (self.innerSend events world).trace = k + 1 ∧
        appendBatchCount (self.innerSend events world).trace = errCount world k 0 + 1 ∧
        (self.innerSend events world).panicked = false ∧
        (self.innerSend events world).server.monitorCount.currSuccValue
          = wrap64 (self.monitorCount.currSuccValue + (self.batchSize : Int)) ∧
        (self.innerSend events world).server.monitorCount.currFailValue
          = (fun v => wrap64 (v + (self.batchSize : Int)))^[errCount world k 0]
              self.monitorCount.currFailValue) ∧
      ((∀ j, j < 3 → world j = Outcome.getFail ∨ ∃ d, world j = Outcome.sendErr d) →
        getCount (self.innerSend events world).trace = 3 ∧
        appendBatchCount (self.innerSend events world).trace = errCount world 3 0 ∧
        (self.innerSend events world).panicked = false ∧
        (self.innerSend events world).server.monitorCount.currSuccValue
          = self.monitorCount.currSuccValue ∧
        (self.innerSend events world).server.monitorCount.currFailValue
          = (fun v => wrap64 (v + (self.batchSize : Int)))^[errCount world 3 0]
              self.monitorCount.currFailValue) ∧
      ((∀ j, j < 3 → world j = Outcome.getFail) →
        getCount (self.innerSend events world).trace = 3 ∧
        appendBatchCount (self.innerSend events world).trace = 0 ∧
        (self.innerSend events world).panicked = false ∧
        (self.innerSend events world).server.monitorCount.currSuccValue
          = self.monitorCount.currSuccValue ∧
        (self.innerSend events world).server.monitorCount.currFailValue
          = self.monitorCount.currFailValue)) := by
  have hcounts := innerSendLoop_counts events world 3 0
    { server := self, trace := [], defers := [] }
  have htc := innerSend_trace_counts self events world
  have hthree : ∀ (_ : self.flumeClientPool ≠ [])
      (_ : ∀ j, j < 3 → world j = Outcome.getFail ∨ ∃ d, world j = Outcome.sendErr d),
      getCount (self.innerSend events world).trace = 3 ∧
      appendBatchCount (self.innerSend events world).trace = errCount world 3 0 ∧
      (self.innerSend events world).panicked = false ∧
      (self.innerSend events world).server.monitorCount.currSuccValue
        = self.monitorCount.currSuccValue ∧
      (self.innerSend events world).server.monitorCount.currFailValue
        = (fun v => wrap64 (v + (self.batchSize : Int)))^[errCount world 3 0]
            self.monitorCount.currFailValue := by
    intro hne hall
    have hpre0 : ∀ j, j < 3 →
        world (0 + j) = Outcome.getFail ∨ ∃ d, world (0 + j) = Outcome.sendErr d := by
      intro j hj
      rw [Nat.zero_add]
      exact hall j hj
    obtain ⟨fr1, heq, _, _, h3, h4, h5, h6⟩ :=
      innerSendLoop_prefix events world 3 0 0
        { server := self, trace := [], defers := [] } hne hpre0
    have hloop : innerSendLoop events world 3 0 { server := self, trace := [], defers := [] }
        = (fr1, false) := by
      have h := heq
      simp only [Nat.add_zero, innerSendLoop] at h
      exact h
    simp only [getCount, appendBatchCount, Nat.zero_add] at h5 h6
    simp only [] at h3 h4
    refine ⟨?_, ?_, ?_, ?_, ?_⟩
    · rw [htc.1, hloop]; exact h5
    · rw [htc.2, hloop]; exact h6
    · exact innerSend_panicked_of_loop self events world (by rw [hloop])
    · rw [innerSend_server, hloop]; exact h3
    · rw [innerSend_server, hloop]; exact h4
  refine ⟨?_, ?_, ?_⟩
  · rw [htc.1]
    have h := hcounts.1
    simp only [getCount] at h
    omega
  · rw [htc.2]
    have h := hcounts.2
    simp only [appendBatchCount] at h
    omega
  · intro hne
    refine ⟨?_, hthree hne, ?_⟩
    · intro k c hk hpre hwk
      have hpre0 : ∀ j, j < k →
          world (0 + j) = Outcome.getFail ∨ ∃ d, world (0 + j) = Outcome.sendErr d := by
        intro j hj
        rw [Nat.zero_add]
        exact hpre j hj
      obtain ⟨fr1, heq, h1, h2, h3, h4, h5, h6⟩ :=
        innerSendLoop_prefix events world k (3 - k - 1 + 1) 0
          { server := self, trace := [], defers := [] } hne hpre0
      obtain ⟨pool, links, hget, _⟩ := getFlumeClientPool_some _ h1
      have h3k : 3 = k + (3 - k - 1 + 1) := by omega
      have hloop : innerSendLoop events world 3 0
          { server := self, trace := [], defers := [] }
          = ({ server := SourceServer.addSucc (fr1.server.withPool links)
                  (1 * fr1.server.batchSize)
               trace := fr1.trace ++ [Effect.get pool (some c)]
                 ++ [Effect.appendBatch c events]
               defers := (pool, c) :: fr1.defers }, false) := by
        rw [h3k, heq]
        exact innerSendLoop_sendOk events world (3 - k - 1) (0 + k) fr1 pool links c hget
          (by rw [Nat.zero_add]; exact hwk)
      simp only [getCount, appendBatchCount, Nat.zero_add] at h5 h6
      simp only [] at h2 h3 h4
      refine ⟨?_, ?_, ?_, ?_, ?_⟩
      · rw [htc.1, hloop]
        simp only [getCount_append, getCount, h5]
      · rw [htc.2, hloop]
        simp only [appendBatchCount_append, appendBatchCount, h6]
      · exact innerSend_panicked_of_loop self events world (by rw [hloop])
      · rw [innerSend_server, hloop]
        simp only [SourceServer.addSucc, withPool_monitorCount, withPool_batchSize, h2, h3]
        rw [Int.one_mul]
      · rw [innerSend_server, hloop]
        simp only [SourceServer.addSucc, withPool_monitorCount]
        exact h4
    · intro hall
      have hall1 : ∀ j, j < 3 →
          world j = Outcome.getFail ∨ ∃ d, world j = Outcome.sendErr d :=
        fun j hj => Or.inl (hall j hj)
      have hall0 : ∀ j, j < 3 → world (0 + j) = Outcome.getFail := by
        intro j hj
        rw [Nat.zero_add]
        exact hall j hj
      obtain ⟨g1, g2, g3, g4, g5⟩ := hthree hne hall1
      rw [errCount_all_getFail world 3 0 hall0] at g2 g5
      exact ⟨g1, g2, g3, g4, by simpa using g5⟩

/-- C6 on three attempts: a failed acquisition, a returned error, a failed
acquisition. -/
theorem innerSend_attempt_bound_witness :
    (newSourceServer "biz" [⟨1, 11⟩, ⟨2, 12⟩] : SourceServer Nat).flumeClientPool ≠ [] ∧
    (∀ j, j < 3 →
      scriptOf [Outcome.getFail, Outcome.sendErr 7, Outcome.getFail] j = Outcome.getFail ∨
      ∃ d, scriptOf [Outcome.getFail, Outcome.sendErr 7, Outcome.getFail] j
        = Outcome.sendErr d) ∧
    getCount (SourceServer.innerSend
      (newSourceServer "biz" [⟨1, 11⟩, ⟨2, 12⟩] : SourceServer Nat) [5]
      (scriptOf [Outcome.getFail, Outcome.sendErr 7, Outcome.getFail])).trace = 3 ∧
    (SourceServer.innerSend
      (newSourceServer "biz" [⟨1, 11⟩, ⟨2, 12⟩] : SourceServer Nat) [5]
      (scriptOf [Outcome.getFail, Outcome.sendErr 7, Outcome.getFail])).server.monitorCount
      = { lastSuccValue := 0, currSuccValue := 0, lastFailValue := 0, currFailValue := 300 } :=
  have hw : ∀ j, j < 3 →
      scriptOf [Outcome.getFail, Outcome.sendErr 7, Outcome.getFail] j = Outcome.getFail ∨
      ∃ d, scriptOf [Outcome.getFail, Outcome.sendErr 7, Outcome.getFail] j
        = Outcome.sendErr d := by
    intro j hj
    have hj3 : j = 0 ∨ j = 1 ∨ j = 2 := by omega
    rcases hj3 with h | h | h <;> subst h <;> simp [scriptOf]
  ⟨by decide, hw,
    (((innerSend_attempt_bound
      (newSourceServer "biz" [⟨1, 11⟩, ⟨2, 12⟩] : SourceServer Nat) [5]
      (scriptOf [Outcome.getFail, Outcome.sendErr 7, Outcome.getFail])).2.2
        (by decide)).2.1 hw).1,
    by decide⟩

/-- C6 (the claim as stated fails): with no successful delivery `innerSend`
does not always make exactly 3 acquisition calls and then return.  On an
empty rotation list, where `Back()` is nil, it faults before any call of
`Get`; and when the first delivery returns an error and the second panics it
returns after 2 calls of `Get`. -/
theorem innerSend_not_always_three_gets :
    (∀ j c, scriptOf [Outcome.sendErr 7, Outcome.sendErr 8, Outcome.sendErr 9] j
      ≠ Outcome.sendOk c) ∧
    getCount (SourceServer.innerSend (newSourceServer "biz" [] : SourceServer Nat) [5]
      (scriptOf [Outcome.sendErr 7, Outcome.sendErr 8, Outcome.sendErr 9])).trace = 0 ∧
    (SourceServer.innerSend (newSourceServer "biz" [] : SourceServer Nat) [5]
      (scriptOf [Outcome.sendErr 7, Outcome.sendErr 8, Outcome.sendErr 9])).panicked = true ∧
    (∀ j c, scriptOf [Outcome.sendErr 7, Outcome.sendPanic 8] j ≠ Outcome.sendOk c) ∧
    getCount (SourceServer.innerSend
      (newSourceServer "biz" [⟨1, 11⟩, ⟨2, 12⟩] : SourceServer Nat) [5]
      (scriptOf [Outcome.sendErr 7, Outcome.sendPanic 8])).trace = 2 ∧
    (SourceServer.innerSend
      (newSourceServer "biz" [⟨1, 11⟩, ⟨2, 12⟩] : SourceServer Nat) [5]
      (scriptOf [Outcome.sendErr 7, Outcome.sendPanic 8])).panicked = false := by
  refine ⟨?_, by decide, by decide, ?_, by decide, by decide⟩
  · intro j c
    match j with
    | 0 => simp [scriptOf]
    | 1 => simp [scriptOf]
    | 2 => simp [scriptOf]
    | n + 3 => simp [scriptOf]
  · intro j c
    match j with
    | 0 => simp [scriptOf]
    | 1 => simp [scriptOf]
    | n + 2 => simp [scriptOf]

/-- C1 (behaviour of the code at the claim's own witness): with batch size 2
and events A, B, C received within one second, the assembler sends the batch
[A,B] and is left with an empty batch in progress; the event C, whose
arrival triggered the flush, is in neither, so the sent batches followed by
the batch in progress are [A,B] and not the received sequence [A,B,C]. -/
theorem assemble_loses_flush_trigger :
    assemble 2 0 [Arrival.sameSecond 0 'A', Arrival.sameSecond 0 'B', Arrival.sameSecond 0 'C']
        = { pack := [], lastCheckTime := 0, sendbuff := [['A', 'B']] } ∧
      (assemble 2 0 [Arrival.sameSecond 0 'A', Arrival.sameSecond 0 'B',
        Arrival.sameSecond 0 'C']).delivered = ['A', 'B'] ∧
      (assemble 2 0 [Arrival.sameSecond 0 'A', Arrival.sameSecond 0 'B',
        Arrival.sameSecond 0 'C']).delivered ≠
        ([Arrival.sameSecond 0 'A', Arrival.sameSecond 0 'B',
          Arrival.sameSecond 0 'C'].map Arrival.event) := by
  decide

/-- C2 (behaviour of the code at batch size 2 and N = 3 events of one
second): the batches formed are the full batch [A,B] followed by an empty
batch in progress, not [A,B] followed by the partial batch [C] holding the
3 mod 2 = 1 remaining event. -/
theorem assemble_partial_batch_missing :
    (assemble 2 0 [Arrival.sameSecond 0 'A', Arrival.sameSecond 0 'B',
        Arrival.sameSecond 0 'C']).formed = [['A', 'B'], []] ∧
      (assemble 2 0 [Arrival.sameSecond 0 'A', Arrival.sameSecond 0 'B',
        Arrival.sameSecond 0 'C']).formed ≠ [['A', 'B'], ['C']] := by
  decide

/-- C8: for every batch size b ≥ 0 and every sequence of arrivals whose clock
readings are Unix seconds, after every prefix of the arrivals the batch in
progress and every batch sent hold at most b events; and on each arrival the
assembler flushes exactly when the batch in progress already holds b events
or the second read by the check is later than the stored last-flush second.
A flush sends the batch in progress as it is (empty or not), leaves an empty
batch in progress and stores the clock; otherwise only the event is
appended. -/
theorem assembler_bounded_and_flush_rule {α : Type} (b : Nat) (t0 : Int)
    (arrivals : List (Arrival α)) (ht0 : unixRange t0)
    (hts : ∀ a ∈ arrivals, unixRange a.nowCheck ∧ unixRange a.nowFlush) :
    (∀ pre post, arrivals = pre ++ post →
      (assemble b t0 pre).pack.length ≤ b ∧
        ∀ batch ∈ (assemble b t0 pre).sendbuff, batch.length ≤ b) ∧
    (∀ pre a post, arrivals = pre ++ a :: post →
      (((assemble b t0 (pre ++ [a])).sendbuff ≠ (assemble b t0 pre).sendbuff) ↔
        ((assemble b t0 pre).pack.length = b ∨
          (assemble b t0 pre).lastCheckTime < a.nowCheck)) ∧
      (((assemble b t0 pre).pack.length = b ∨
          (assemble b t0 pre).lastCheckTime < a.nowCheck) →
        (assemble b t0 (pre ++ [a])).sendbuff
            = (assemble b t0 pre).sendbuff ++ [(assemble b t0 pre).pack] ∧
          (assemble b t0 (pre ++ [a])).pack = [] ∧
          (assemble b t0 (pre ++ [a])).lastCheckTime = a.nowFlush) ∧
      (¬ ((assemble b t0 pre).pack.length = b ∨
          (assemble b t0 pre).lastCheckTime < a.nowCheck) →
        (assemble b t0 (pre ++ [a])).sendbuff = (assemble b t0 pre).sendbuff ∧
          (assemble b t0 (pre ++ [a])).pack = (assemble b t0 pre).pack ++ [a.event] ∧
          (assemble b t0 (pre ++ [a])).lastCheckTime
            = (assemble b t0 pre).lastCheckTime)) := by
  refine ⟨fun pre _ _ => assemble_bounded b t0 pre, ?_⟩
  intro pre a post hsplit
  have hpre : ∀ x ∈ pre, unixRange x.nowCheck ∧ unixRange x.nowFlush := by
    intro x hx
    exact hts x (by rw [hsplit]; exact List.mem_append_left _ hx)
  have ha : unixRange a.nowCheck ∧ unixRange a.nowFlush :=
    hts a (by rw [hsplit]; simp)
  have hlast := assemble_lastCheckTime_range b t0 pre ht0 hpre
  have hlen := (assemble_bounded b t0 pre).1
  have hw := wrap64_sub_of_unixRange a.nowCheck (assemble b t0 pre).lastCheckTime ha.1 hlast
  rw [assemble_snoc]
  generalize assemble b t0 pre = s at hlast hlen hw
  by_cases hc : s.pack.length = b ∨ s.lastCheckTime < a.nowCheck
  · have hg : ¬ (s.pack.length < b ∧ wrap64 (a.nowCheck - s.lastCheckTime) ≤ 0) := by
      rw [hw]; omega
    have hstep : assemblerStep b s a =
        { pack := [], lastCheckTime := a.nowFlush, sendbuff := s.sendbuff ++ [s.pack] } := by
      unfold assemblerStep; rw [if_neg hg]
    rw [hstep]
    refine ⟨⟨fun _ => hc, fun _ => by simp⟩, fun _ => ⟨rfl, rfl, rfl⟩, fun h => absurd hc h⟩
  · have hg : s.pack.length < b ∧ wrap64 (a.nowCheck - s.lastCheckTime) ≤ 0 := by
      rw [hw]; omega
    have hstep : assemblerStep b s a = { s with pack := s.pack ++ [a.event] } := by
      unfold assemblerStep; rw [if_pos hg]
    rw [hstep]
    refine ⟨⟨fun h => absurd rfl h, fun h => absurd h hc⟩, fun h => absurd h hc,
      fun _ => ⟨rfl, rfl, rfl⟩⟩

/-- C8 at batch size 2: events A, B, C in second 100, then D in second 101,
the assembler having started in second 100. -/
theorem assembler_bounded_and_flush_rule_witness :
    unixRange 100 ∧
    (∀ a ∈ [Arrival.sameSecond 100 'A', Arrival.sameSecond 100 'B',
        Arrival.sameSecond 100 'C', Arrival.sameSecond 101 'D'],
      unixRange a.nowCheck ∧ unixRange a.nowFlush) ∧
    (assemble 2 100 [Arrival.sameSecond 100 'A', Arrival.sameSecond 100 'B',
        Arrival.sameSecond 100 'C']).sendbuff = [['A', 'B']] ∧
    ((assemble 2 100 ([Arrival.sameSecond 100 'A', Arrival.sameSecond 100 'B',
        Arrival.sameSecond 100 'C'] ++ [Arrival.sameSecond 101 'D'])).sendbuff ≠
      (assemble 2 100 [Arrival.sameSecond 100 'A', Arrival.sameSecond 100 'B',
        Arrival.sameSecond 100 'C']).sendbuff ↔
      ((assemble 2 100 [Arrival.sameSecond 100 'A', Arrival.sameSecond 100 'B',
        Arrival.sameSecond 100 'C']).pack.length = 2 ∨
        (assemble 2 100 [Arrival.sameSecond 100 'A', Arrival.sameSecond 100 'B',
          Arrival.sameSecond 100 'C']).lastCheckTime
          < (Arrival.sameSecond 101 'D' : Arrival Char).nowCheck)) :=
  ⟨by decide, by decide, by decide,
    ((assembler_bounded_and_flush_rule 2 100
      [Arrival.sameSecond 100 'A', Arrival.sameSecond 100 'B',
        Arrival.sameSecond 100 'C', Arrival.sameSecond 101 'D']
      (by decide) (by decide)).2
      [Arrival.sameSecond 100 'A', Arrival.sameSecond 100 'B', Arrival.sameSecond 100 'C']
      (Arrival.sameSecond 101 'D') [] rfl).1⟩

end consumer

